import Mathlib

/-!
Verification development for the FastAPI auto-sign-in agent sample.
We embed the JWT bearer-token authentication middleware
(src/auth_middleware.py), the FastAPI-to-aiohttp request adapter
(src/request_adapter.py) and the message handler (src/message_handler.py)
as executable Lean definitions, and prove the documented properties of the
auth gate and the adapter against them.
-/

/-- Python strings are modelled as lists of characters. -/
abbrev PyStr := List Char

/-- Model of the Python str.lower method (ASCII lowering, as Char.toLower). -/
def pyLower (s : PyStr) : PyStr := s.map Char.toLower

/-- Model of the Python split with an explicit single-space separator:
splits at every space character and keeps empty segments, so the result is
never empty. Mirrors auth_header.split in JWTAuthMiddleware. -/
def splitOnSpace : PyStr → List PyStr
  | [] => [[]]
  | c :: rest =>
    if c = ' ' then [] :: splitOnSpace rest
    else
      match splitOnSpace rest with
      | [] => [[c]]
      | h :: t => (c :: h) :: t

/-- Python dict membership test, over an association list kept in insertion
order. -/
def dictContains {α : Type} (d : List (PyStr × α)) (k : PyStr) : Bool :=
  d.any fun p => decide (p.1 = k)

/-- Python dict lookup, returning the value of the first entry with the
given key, if any (entries of a dict have pairwise distinct keys, so the
first matching entry is the only one). -/
def dictGetOpt {α : Type} : List (PyStr × α) → PyStr → Option α
  | [], _ => none
  | p :: rest, k => if p.1 = k then some p.2 else dictGetOpt rest k

/-- Python dict item assignment: if the key is present its value is updated
in place, otherwise the pair is appended at the end. -/
def dictSet {α : Type} (d : List (PyStr × α)) (k : PyStr) (v : α) :
    List (PyStr × α) :=
  if dictContains d k then d.map fun p => if p.1 = k then (p.1, v) else p
  else d ++ [(k, v)]

/-- Building a Python dict from a sequence of key-value pairs, as a dict
comprehension does: later pairs overwrite the values of earlier pairs with
the same key. -/
def dictOfPairs {α : Type} (ps : List (PyStr × α)) : List (PyStr × α) :=
  ps.foldl (fun d p => dictSet d p.1 p.2) []

/-- The value of the last pair in the sequence carrying the given key, if
any: the value a dict built from the sequence associates to that key. -/
def lastValueFor {α : Type} (k : PyStr) : List (PyStr × α) → Option α
  | [] => none
  | p :: ps =>
    match lastValueFor k ps with
    | some v => some v
    | none => if p.1 = k then some p.2 else none

/-- The claims object produced by the external JwtTokenValidator (an opaque
validated identity; we model its payload as an association list). -/
structure ClaimsIdentity where
  claims : List (PyStr × PyStr)
deriving DecidableEq, Repr

/-- Outcome of a call to the external validate_token: a claims object, a
raised ValueError with a message, or any other raised exception. -/
inductive ValidationOutcome where
  | ok (claims : ClaimsIdentity)
  | valueError (msg : PyStr)
  | otherError (msg : PyStr)
deriving DecidableEq

/-- Behaviour of the external JwtTokenValidator instance: validate_token as
a function of the token, and the anonymous claims it synthesizes. -/
structure JwtTokenValidator where
  validate_token : PyStr → ValidationOutcome
  get_anonymous_claims : ClaimsIdentity

/-- The auth configuration object. CLIENT_ID is none when the attribute is
absent, and may be the empty string (falsy in Python). -/
structure AuthConfig where
  CLIENT_ID : Option PyStr
deriving DecidableEq

/-- The condition of the anonymous branch of handle missing header: the
auth configuration is absent, or it has no CLIENT_ID attribute, or the
CLIENT_ID value is falsy. -/
def clientIdMissing (cfg : Option AuthConfig) : Bool :=
  match cfg with
  | none => true
  | some c =>
    match c.CLIENT_ID with
    | none => true
    | some s => s.isEmpty

/-- Request-scoped state: the claims identity slot written by the auth
gate and read by the adapter. -/
structure RequestState where
  claims_identity : Option ClaimsIdentity
deriving DecidableEq, Repr

/-- The part of a FastAPI request seen by JWTAuthMiddleware: the URL path,
the value of the Authorization header (none when absent), and the mutable
request state. -/
structure AuthRequest where
  path : PyStr
  authorization : Option PyStr
  state : RequestState
deriving DecidableEq

/-- A JSONResponse carrying an error payload, as returned by the auth gate
on rejection: the message stored under the error key, and the status code. -/
structure JSONResponse where
  error : PyStr
  status_code : Nat
deriving DecidableEq

/-- Result of authenticate_request: success with the resulting request
state, rejection with an error response, or an uncaught Python exception
escaping the middleware. -/
inductive AuthOutcome where
  | ok (state : RequestState)
  | rejected (resp : JSONResponse)
  | raised (msg : PyStr)
deriving DecidableEq

/-- The message of the AttributeError raised when get_anonymous_claims is
called on a None token_validator (Python renders the type and attribute
names in quotes; we keep the unquoted text). -/
def noneTypeAnonymousClaimsMsg : PyStr :=
  "NoneType object has no attribute get_anonymous_claims".toList

/-- The message of the AttributeError raised when validate_token is called
on a None token_validator. -/
def noneTypeValidateTokenMsg : PyStr :=
  "NoneType object has no attribute validate_token".toList

/-- The JWTAuthMiddleware object: the stored auth configuration and the
token validator, which the constructor sets to None when no configuration
is given. -/
structure JWTAuthMiddleware where
  auth_config : Option AuthConfig
  token_validator : Option JwtTokenValidator

/-- The JWTAuthMiddleware constructor: token_validator is a fresh validator
when auth_config is truthy and None otherwise. The behaviour of the SDK
validator built from the configuration is the parameter v. -/
def JWTAuthMiddleware.mkFromConfig (auth_config : Option AuthConfig)
    (v : JwtTokenValidator) : JWTAuthMiddleware :=
  { auth_config := auth_config
    token_validator := if auth_config.isSome then some v else none }

/-- Model of JWTAuthMiddleware extract_token: split the header on spaces;
unless the result is exactly two parts with the first equal to Bearer,
return None; otherwise return the second part. -/
def JWTAuthMiddleware.extract_token (auth_header : PyStr) : Option PyStr :=
  match splitOnSpace auth_header with
  | [p0, p1] => if p0 = "Bearer".toList then some p1 else none
  | _ => none

/-- Model of JWTAuthMiddleware validate_token: extract the token (empty or
missing token rejects with the format error), call the external validator,
store the claims in request state on success, and convert a ValueError or
any other exception into a 401 response. A None validator raises an
AttributeError inside the try block, which the generic handler converts to
a 401 as well. -/
def JWTAuthMiddleware.validate_token (m : JWTAuthMiddleware)
    (st : RequestState) (auth_header : PyStr) : AuthOutcome :=
  match JWTAuthMiddleware.extract_token auth_header with
  | none => .rejected ⟨"Invalid Authorization header format".toList, 401⟩
  | some [] => .rejected ⟨"Invalid Authorization header format".toList, 401⟩
  | some (c :: cs) =>
    match m.token_validator with
    | none =>
      .rejected ⟨"Authentication error: ".toList ++ noneTypeValidateTokenMsg, 401⟩
    | some v =>
      match v.validate_token (c :: cs) with
      | .ok claims => .ok { st with claims_identity := some claims }
      | .valueError msg =>
        .rejected ⟨"JWT validation failed: ".toList ++ msg, 401⟩
      | .otherError msg =>
        .rejected ⟨"Authentication error: ".toList ++ msg, 401⟩

/-- Model of JWTAuthMiddleware handle missing header: when no CLIENT_ID is
configured, store the anonymous claims of the token validator and succeed;
calling get_anonymous_claims on a None validator raises an uncaught
AttributeError. When a CLIENT_ID is configured, reject with 401. -/
def JWTAuthMiddleware.handle_missing_header (m : JWTAuthMiddleware)
    (st : RequestState) : AuthOutcome :=
  if clientIdMissing m.auth_config then
    match m.token_validator with
    | some v => .ok { st with claims_identity := some v.get_anonymous_claims }
    | none => .raised noneTypeAnonymousClaimsMsg
  else
    .rejected ⟨"Authorization header not found".toList, 401⟩

/-- Model of JWTAuthMiddleware authenticate_request: any path other than
the message ingestion route succeeds immediately with the state untouched;
otherwise a truthy Authorization header goes to token validation and a
missing or empty header to the missing-header handler. -/
def JWTAuthMiddleware.authenticate_request (m : JWTAuthMiddleware)
    (req : AuthRequest) : AuthOutcome :=
  if req.path ≠ "/api/messages".toList then .ok req.state
  else
    match req.authorization with
    | some (c :: cs) => m.validate_token req.state (c :: cs)
    | some [] => m.handle_missing_header req.state
    | none => m.handle_missing_header req.state

/-- Specification-side predicate, written from the words of the spec: the
Authorization header value has the exact two-token form of the scheme word
Bearer, one single space, and a non-empty token containing no space. -/
def specBearerWellFormed (s : PyStr) : Prop :=
  ∃ t : PyStr, t ≠ [] ∧ ' ' ∉ t ∧ s = "Bearer ".toList ++ t

/-- The double-quote character, written by code point to keep literals
simple. -/
def quoteChar : Char := Char.ofNat 34

/-- The backslash character. -/
def backslashChar : Char := Char.ofNat 92

/-- The opening curly brace character. -/
def lbraceChar : Char := Char.ofNat 123

/-- The closing curly brace character. -/
def rbraceChar : Char := Char.ofNat 125

/-- Whether a byte is a UTF-8 continuation byte. -/
def isUtf8Cont (b : Nat) : Bool := 128 ≤ b && b < 192

/-- Fuelled UTF-8 decoder over a list of bytes, modelling the Python bytes
decode method with the utf-8 codec: short-form (non-overlong,
non-surrogate) sequences of one to four bytes; anything else fails. -/
def utf8DecodeFuel : Nat → List Nat → Option PyStr
  | 0, _ => none
  | _ + 1, [] => some []
  | fuel + 1, b :: rest =>
    if b < 128 then
      (utf8DecodeFuel fuel rest).map fun s => Char.ofNat b :: s
    else if 194 ≤ b && b < 224 then
      match rest with
      | b1 :: rest1 =>
        if isUtf8Cont b1 then
          (utf8DecodeFuel fuel rest1).map fun s =>
            Char.ofNat ((b - 192) * 64 + (b1 - 128)) :: s
        else none
      | [] => none
    else if 224 ≤ b && b < 240 then
      match rest with
      | b1 :: b2 :: rest2 =>
        if isUtf8Cont b1 && isUtf8Cont b2 then
          let cp := (b - 224) * 4096 + (b1 - 128) * 64 + (b2 - 128)
          if 2048 ≤ cp && !(55296 ≤ cp && cp < 57344) then
            (utf8DecodeFuel fuel rest2).map fun s => Char.ofNat cp :: s
          else none
        else none
      | _ => none
    else if 240 ≤ b && b < 245 then
      match rest with
      | b1 :: b2 :: b3 :: rest3 =>
        if isUtf8Cont b1 && isUtf8Cont b2 && isUtf8Cont b3 then
          let cp := (b - 240) * 262144 + (b1 - 128) * 4096
            + (b2 - 128) * 64 + (b3 - 128)
          if 65536 ≤ cp && cp < 1114112 then
            (utf8DecodeFuel fuel rest3).map fun s => Char.ofNat cp :: s
          else none
        else none
      | _ => none
    else none

/-- UTF-8 decoding of a byte list; none models a raised
UnicodeDecodeError. -/
def utf8Decode (bs : List Nat) : Option PyStr :=
  utf8DecodeFuel (bs.length + 1) bs

/-- JSON values as produced by the model of the Python json loads function
(numbers restricted to integers). -/
inductive JsonValue where
  | null
  | bool (b : Bool)
  | num (n : Int)
  | str (s : PyStr)
  | arr (elems : List JsonValue)
  | obj (fields : List (PyStr × JsonValue))

/-- JSON whitespace. -/
def isJsonWs (c : Char) : Bool :=
  c = ' ' || c = Char.ofNat 10 || c = Char.ofNat 9 || c = Char.ofNat 13

/-- Drop leading JSON whitespace. -/
def skipWs : PyStr → PyStr
  | [] => []
  | c :: rest => if isJsonWs c then skipWs rest else c :: rest

/-- Message of the JSON decode error raised at a position where a value was
expected. -/
def jsonExpectingValueMsg : PyStr := "Expecting value".toList

/-- Message of the JSON decode error raised when data remains after the
top-level value. -/
def jsonExtraDataMsg : PyStr := "Extra data".toList

/-- Message of the JSON decode error raised on an unterminated string. -/
def jsonUnterminatedMsg : PyStr := "Unterminated string".toList

/-- Message of the JSON decode error raised on a malformed escape. -/
def jsonBadEscapeMsg : PyStr := "Invalid escape".toList

/-- Message of the JSON decode error raised when a property name was
expected. -/
def jsonExpectingNameMsg : PyStr :=
  "Expecting property name enclosed in double quotes".toList

/-- Message of the JSON decode error raised when a colon was expected. -/
def jsonExpectingColonMsg : PyStr := "Expecting colon delimiter".toList

/-- Message of the JSON decode error raised when a comma or a closing
bracket was expected. -/
def jsonExpectingDelimMsg : PyStr := "Expecting comma delimiter".toList

/-- Message returned when the parser runs out of fuel (unreachable for the
fuel chosen by the loads model; kept total). -/
def jsonFuelMsg : PyStr := "Depth limit exceeded".toList

/-- The translation of a JSON escape letter to the escaped character. -/
def escapeChar (e : Char) : Option Char :=
  if e = quoteChar then some quoteChar
  else if e = backslashChar then some backslashChar
  else if e = '/' then some '/'
  else if e = 'n' then some (Char.ofNat 10)
  else if e = 't' then some (Char.ofNat 9)
  else if e = 'r' then some (Char.ofNat 13)
  else if e = 'b' then some (Char.ofNat 8)
  else if e = 'f' then some (Char.ofNat 12)
  else none

/-- Parse the remainder of a JSON string after its opening quote, returning
the contents and the rest of the input. -/
def parseJsonString : Nat → PyStr → Except PyStr (PyStr × PyStr)
  | 0, _ => .error jsonFuelMsg
  | _ + 1, [] => .error jsonUnterminatedMsg
  | fuel + 1, c :: rest =>
    if c = quoteChar then .ok ([], rest)
    else if c = backslashChar then
      match rest with
      | [] => .error jsonUnterminatedMsg
      | e :: rest1 =>
        match escapeChar e with
        | some ec => (parseJsonString fuel rest1).map fun p => (ec :: p.1, p.2)
        | none => .error jsonBadEscapeMsg
    else (parseJsonString fuel rest).map fun p => (c :: p.1, p.2)

/-- The leading run of decimal digits of the input, as digit values, with
the rest of the input. -/
def parseDigits : PyStr → List Nat × PyStr
  | [] => ([], [])
  | c :: rest =>
    if c.isDigit then
      let p := parseDigits rest
      ((c.toNat - 48) :: p.1, p.2)
    else ([], c :: rest)

/-- The natural number denoted by a list of digit values. -/
def digitsToNat (ds : List Nat) : Nat := ds.foldl (fun a d => a * 10 + d) 0

mutual

/-- Parse one JSON value at the head of the input (after optional
whitespace), returning it with the unconsumed rest. Models the value
grammar of the Python json loads function, with numbers restricted to
integers. -/
def parseJsonValue (fuel : Nat) (s : PyStr) : Except PyStr (JsonValue × PyStr) :=
  match fuel with
  | 0 => .error jsonFuelMsg
  | fuel + 1 =>
    match skipWs s with
    | [] => .error jsonExpectingValueMsg
    | c :: rest =>
      if c = lbraceChar then
        match skipWs rest with
        | [] => .error jsonExpectingNameMsg
        | c2 :: rest2 =>
          if c2 = rbraceChar then .ok (.obj [], rest2)
          else
            (parseJsonMembers fuel (c2 :: rest2)).map fun p =>
              (JsonValue.obj p.1, p.2)
      else if c = '[' then
        match skipWs rest with
        | [] => .error jsonExpectingValueMsg
        | c2 :: rest2 =>
          if c2 = ']' then .ok (.arr [], rest2)
          else
            (parseJsonElements fuel (c2 :: rest2)).map fun p =>
              (JsonValue.arr p.1, p.2)
      else if c = quoteChar then
        (parseJsonString (rest.length + 1) rest).map fun p =>
          (JsonValue.str p.1, p.2)
      else if c = 't' then
        if rest.take 3 = "rue".toList then .ok (.bool true, rest.drop 3)
        else .error jsonExpectingValueMsg
      else if c = 'f' then
        if rest.take 4 = "alse".toList then .ok (.bool false, rest.drop 4)
        else .error jsonExpectingValueMsg
      else if c = 'n' then
        if rest.take 3 = "ull".toList then .ok (.null, rest.drop 3)
        else .error jsonExpectingValueMsg
      else if c = '-' then
        match parseDigits rest with
        | ([], _) => .error jsonExpectingValueMsg
        | (d :: ds, rest2) => .ok (.num (-(digitsToNat (d :: ds) : Int)), rest2)
      else if c.isDigit then
        match parseDigits (c :: rest) with
        | ([], _) => .error jsonExpectingValueMsg
        | (d :: ds, rest2) => .ok (.num (digitsToNat (d :: ds) : Int), rest2)
      else .error jsonExpectingValueMsg

/-- Parse the members of a JSON object after its opening brace (first
member pending), up to and including the closing brace. -/
def parseJsonMembers (fuel : Nat) (s : PyStr) :
    Except PyStr (List (PyStr × JsonValue) × PyStr) :=
  match fuel with
  | 0 => .error jsonFuelMsg
  | fuel + 1 =>
    match skipWs s with
    | [] => .error jsonExpectingNameMsg
    | c :: rest =>
      if c = quoteChar then
        match parseJsonString (rest.length + 1) rest with
        | .error e => .error e
        | .ok (key, rest1) =>
          match skipWs rest1 with
          | [] => .error jsonExpectingColonMsg
          | c2 :: rest2 =>
            if c2 = ':' then
              match parseJsonValue fuel rest2 with
              | .error e => .error e
              | .ok (v, rest3) =>
                match skipWs rest3 with
                | [] => .error jsonExpectingDelimMsg
                | c3 :: rest4 =>
                  if c3 = rbraceChar then .ok ([(key, v)], rest4)
                  else if c3 = ',' then
                    (parseJsonMembers fuel rest4).map fun p =>
                      ((key, v) :: p.1, p.2)
                  else .error jsonExpectingDelimMsg
            else .error jsonExpectingColonMsg
      else .error jsonExpectingNameMsg

/-- Parse the elements of a JSON array after its opening bracket (first
element pending), up to and including the closing bracket. -/
def parseJsonElements (fuel : Nat) (s : PyStr) :
    Except PyStr (List JsonValue × PyStr) :=
  match fuel with
  | 0 => .error jsonFuelMsg
  | fuel + 1 =>
    match parseJsonValue fuel s with
    | .error e => .error e
    | .ok (v, rest) =>
      match skipWs rest with
      | [] => .error jsonExpectingDelimMsg
      | c :: rest1 =>
        if c = ']' then .ok ([v], rest1)
        else if c = ',' then
          (parseJsonElements fuel rest1).map fun p => (v :: p.1, p.2)
        else .error jsonExpectingDelimMsg

end

/-- Model of the Python json loads function: parse one value and require
only whitespace after it; an error models a raised JSONDecodeError. -/
def pyJsonLoads (s : PyStr) : Except PyStr JsonValue :=
  match parseJsonValue (2 * s.length + 2) s with
  | .error e => .error e
  | .ok (v, rest) => if skipWs rest = [] then .ok v else .error jsonExtraDataMsg

/-- Model of the homonymous class of request_adapter: a dict keyed by the
lowered header names, and a dict mapping each lowered name to the original
casing of the key that produced it. -/
structure CaseInsensitiveDict where
  _data : List (PyStr × PyStr)
  _original_keys : List (PyStr × PyStr)
deriving DecidableEq

/-- The CaseInsensitiveDict constructor, from a header dict. -/
def CaseInsensitiveDict.ofDict (data : List (PyStr × PyStr)) :
    CaseInsensitiveDict :=
  { _data := dictOfPairs (data.map fun p => (pyLower p.1, p.2))
    _original_keys := dictOfPairs (data.map fun p => (pyLower p.1, p.1)) }

/-- The get method of CaseInsensitiveDict: look up the lowered key,
returning the default when absent. -/
def CaseInsensitiveDict.get (d : CaseInsensitiveDict) (key : PyStr)
    (default : Option PyStr) : Option PyStr :=
  match dictGetOpt d._data (pyLower key) with
  | some v => some v
  | none => default

/-- The membership method of CaseInsensitiveDict. -/
def CaseInsensitiveDict.hasKey (d : CaseInsensitiveDict) (key : PyStr) : Bool :=
  dictContains d._data (pyLower key)

/-- The items method of CaseInsensitiveDict: the stored entries with their
original key casings restored. -/
def CaseInsensitiveDict.items (d : CaseInsensitiveDict) :
    List (PyStr × PyStr) :=
  d._data.map fun p => ((dictGetOpt d._original_keys p.1).getD [], p.2)

/-- The part of a FastAPI request seen by the message handler and the
request adapter: HTTP method, the native header dict, the already awaited
raw body, and the request state written by the auth gate. -/
structure FastAPIRequest where
  method : PyStr
  headers : List (PyStr × PyStr)
  body : List Nat
  state : RequestState
deriving DecidableEq

/-- Model of FastAPIToAioHttpRequestAdapter: the wrapped request, the body
buffer read once before construction, the claims identity entry of the
internal data dict (the only entry this repository ever stores), and
whether the constructor logged the missing-identity warning. -/
structure FastAPIToAioHttpRequestAdapter where
  _fastapi_request : FastAPIRequest
  _body : List Nat
  _data_claims_identity : Option ClaimsIdentity
  warned_missing_identity : Bool
deriving DecidableEq

/-- The adapter constructor together with transfer claims identity: copy
the claims identity from request state into the data dict when present,
otherwise log a warning; construction never fails. -/
def FastAPIToAioHttpRequestAdapter.ofRequest (req : FastAPIRequest)
    (body : List Nat) : FastAPIToAioHttpRequestAdapter :=
  { _fastapi_request := req
    _body := body
    _data_claims_identity := req.state.claims_identity
    warned_missing_identity := req.state.claims_identity.isNone }

/-- The headers property of the adapter: take the native header dict, add a
Content-Type entry with value application/json when neither of the two
exact keys content-type and Content-Type is present, and wrap the result
case-insensitively. -/
def FastAPIToAioHttpRequestAdapter.headers
    (a : FastAPIToAioHttpRequestAdapter) : CaseInsensitiveDict :=
  CaseInsensitiveDict.ofDict
    (if !(dictContains a._fastapi_request.headers "content-type".toList
        || dictContains a._fastapi_request.headers "Content-Type".toList) then
      dictSet a._fastapi_request.headers "Content-Type".toList
        "application/json".toList
    else a._fastapi_request.headers)

/-- The method property of the adapter. -/
def FastAPIToAioHttpRequestAdapter.method
    (a : FastAPIToAioHttpRequestAdapter) : PyStr :=
  a._fastapi_request.method

/-- The get method of the adapter data dict, with a default: the repository
stores only the claims identity entry. -/
def FastAPIToAioHttpRequestAdapter.getData
    (a : FastAPIToAioHttpRequestAdapter) (key : PyStr)
    (default : Option ClaimsIdentity) : Option ClaimsIdentity :=
  if key = "claims_identity".toList then
    match a._data_claims_identity with
    | some c => some c
    | none => default
  else default

/-- Message of the UnicodeDecodeError raised when the body is not valid
UTF-8. -/
def unicodeDecodeErrorMsg : PyStr :=
  "utf-8 codec cannot decode bytes".toList

/-- The read method of the adapter: the stored buffer, never the transport
stream. -/
def FastAPIToAioHttpRequestAdapter.read
    (a : FastAPIToAioHttpRequestAdapter) : List Nat :=
  a._body

/-- The text method of the adapter: UTF-8 decoding of the stored buffer. -/
def FastAPIToAioHttpRequestAdapter.text
    (a : FastAPIToAioHttpRequestAdapter) : Except PyStr PyStr :=
  match utf8Decode a._body with
  | some s => .ok s
  | none => .error unicodeDecodeErrorMsg

/-- The json method of the adapter: decode the stored buffer, parse the
result, and re-raise any failure. -/
def FastAPIToAioHttpRequestAdapter.json
    (a : FastAPIToAioHttpRequestAdapter) : Except PyStr JsonValue :=
  match utf8Decode a._body with
  | some s => pyJsonLoads s
  | none => .error unicodeDecodeErrorMsg

/-- The result object returned by the external start agent process: an
optional byte body (none models an absent or falsy body attribute) and a
status code. -/
structure ProcessorResponse where
  body : Option (List Nat)
  status : Nat

/-- Behaviour of one invocation of the external start agent process:
either a returned response object or a raised exception with a message. -/
inductive ProcessorBehavior where
  | returns (resp : ProcessorResponse)
  | raises (msg : PyStr)

/-- The response produced by the message handler: a JSONResponse with a
content value and a status code, or a raised HTTPException with a status
code and a detail message. -/
inductive HandlerResult where
  | response (content : JsonValue) (status_code : Nat)
  | httpError (status_code : Nat) (detail : PyStr)

/-- The default success payload of the handler. -/
def jsonOkBody : JsonValue := .obj [("status".toList, .str "ok".toList)]

/-- Model of the convert response step of MessageHandler: a truthy body is
decoded as UTF-8 and parsed as JSON and echoed with the processor status
code (a decode or parse failure is re-raised for the outer handler);
otherwise the default payload with status 200 is returned. -/
def MessageHandler.convert_response (resp : ProcessorResponse) :
    Except PyStr HandlerResult :=
  match resp.body with
  | some (b :: bs) =>
    match utf8Decode (b :: bs) with
    | none => .error unicodeDecodeErrorMsg
    | some s =>
      match pyJsonLoads s with
      | .ok data => .ok (.response data resp.status)
      | .error e => .error e
  | some [] => .ok (.response jsonOkBody 200)
  | none => .ok (.response jsonOkBody 200)

/-- Model of handle message of MessageHandler, parametrized by the
behaviour of the external start agent process: an empty body raises the 400
HTTPException before the processor is reached; otherwise the adapter is
built and the processor invoked, a raised exception or a conversion failure
becoming the 500 internal error. The boolean records whether the processor
was invoked. -/
def MessageHandler.handle_message
    (process : FastAPIToAioHttpRequestAdapter → ProcessorBehavior)
    (req : FastAPIRequest) : HandlerResult × Bool :=
  if req.body = [] then
    (.httpError 400 "Request body is empty".toList, false)
  else
    let adapter := FastAPIToAioHttpRequestAdapter.ofRequest req req.body
    match process adapter with
    | .raises msg =>
      (.httpError 500 ("Internal server error: ".toList ++ msg), true)
    | .returns resp =>
      match MessageHandler.convert_response resp with
      | .ok r => (r, true)
      | .error e =>
        (.httpError 500 ("Internal server error: ".toList ++ e), true)

/-- A concrete validator behaviour used for the closed evaluations below:
every token is reported expired through a raised ValueError, and the
anonymous claims carry a fixed marker payload. -/
def cVal : JwtTokenValidator :=
  { validate_token := fun _ => .valueError "expired".toList
    get_anonymous_claims := ⟨[("iss".toList, "anonymous".toList)]⟩ }

/-- A concrete validator behaviour accepting exactly one token. -/
def cValGood : JwtTokenValidator :=
  { validate_token := fun t =>
      if t = "good".toList then .ok ⟨[("sub".toList, "alice".toList)]⟩
      else .valueError "expired".toList
    get_anonymous_claims := ⟨[]⟩ }

theorem splitOnSpace_ne_nil (s : PyStr) : splitOnSpace s ≠ [] := by
  induction s with
  | nil => simp [splitOnSpace]
  | cons c rest ih =>
    by_cases hc : c = ' '
    · simp [splitOnSpace, hc]
    · cases hr : splitOnSpace rest with
      | nil => exact absurd hr ih
      | cons h t => simp [splitOnSpace, hc, hr]

theorem splitOnSpace_no_space {s : PyStr} (h : ' ' ∉ s) : splitOnSpace s = [s] := by
  induction s with
  | nil => rfl
  | cons c rest ih =>
    have hc : ¬ c = ' ' := fun hh => h (hh ▸ List.mem_cons_self c rest)
    have hr := ih fun hh => h (List.mem_cons_of_mem c hh)
    simp [splitOnSpace, hc, hr]

theorem splitOnSpace_single {s x : PyStr} (h : splitOnSpace s = [x]) :
    s = x ∧ ' ' ∉ x := by
  induction s generalizing x with
  | nil =>
    simp [splitOnSpace] at h
    subst h
    exact ⟨rfl, by simp⟩
  | cons c rest ih =>
    by_cases hc : c = ' '
    · subst hc
      simp [splitOnSpace] at h
      exact absurd h.2 (splitOnSpace_ne_nil rest)
    · cases hr : splitOnSpace rest with
      | nil => exact absurd hr (splitOnSpace_ne_nil rest)
      | cons h0 t0 =>
        simp [splitOnSpace, hc, hr] at h
        obtain ⟨hx, ht0⟩ := h
        subst ht0
        obtain ⟨hrest, hsp⟩ := ih hr
        subst hrest
        subst hx
        refine ⟨rfl, ?_⟩
        intro hm
        rcases List.mem_cons.mp hm with h1 | h1
        · exact hc h1.symm
        · exact hsp h1

theorem splitOnSpace_append {a : PyStr} (b : PyStr) (h : ' ' ∉ a) :
    splitOnSpace (a ++ ' ' :: b) = a :: splitOnSpace b := by
  induction a with
  | nil => simp [splitOnSpace]
  | cons c a0 ih =>
    have hc : ¬ c = ' ' := fun hh => h (hh ▸ List.mem_cons_self c a0)
    have hr := ih fun hh => h (List.mem_cons_of_mem c hh)
    simp only [List.cons_append, splitOnSpace, hc, if_false, List.append_eq]
    rw [hr]

theorem splitOnSpace_pair {s a b : PyStr} (h : splitOnSpace s = [a, b]) :
    s = a ++ ' ' :: b ∧ ' ' ∉ a ∧ ' ' ∉ b := by
  induction s generalizing a with
  | nil => simp [splitOnSpace] at h
  | cons c rest ih =>
    by_cases hc : c = ' '
    · subst hc
      simp [splitOnSpace] at h
      obtain ⟨ha, hb⟩ := h
      obtain ⟨hrest, hsp⟩ := splitOnSpace_single hb
      subst hrest
      subst ha
      exact ⟨rfl, by simp, hsp⟩
    · cases hr : splitOnSpace rest with
      | nil => exact absurd hr (splitOnSpace_ne_nil rest)
      | cons h0 t0 =>
        simp [splitOnSpace, hc, hr] at h
        obtain ⟨ha, ht0⟩ := h
        subst ht0
        obtain ⟨hrest, hsp0, hspb⟩ := ih hr
        subst hrest
        subst ha
        refine ⟨by simp, ?_, hspb⟩
        intro hm
        rcases List.mem_cons.mp hm with h1 | h1
        · exact hc h1.symm
        · exact hsp0 h1

theorem bearer_space_toList : "Bearer ".toList = "Bearer".toList ++ [' '] := by decide

theorem extract_token_eq_some {s t : PyStr}
    (h : JWTAuthMiddleware.extract_token s = some t) :
    s = "Bearer ".toList ++ t ∧ ' ' ∉ t := by
  unfold JWTAuthMiddleware.extract_token at h
  cases hsp : splitOnSpace s with
  | nil => rw [hsp] at h; simp at h
  | cons p0 ps =>
    cases ps with
    | nil => rw [hsp] at h; simp at h
    | cons p1 ps1 =>
      cases ps1 with
      | nil =>
        rw [hsp] at h
        simp only [] at h
        by_cases hb : p0 = "Bearer".toList
        · rw [if_pos hb] at h
          cases h
          subst hb
          obtain ⟨hs, _, hspt⟩ := splitOnSpace_pair hsp
          refine ⟨?_, hspt⟩
          rw [hs, bearer_space_toList, List.append_assoc, List.singleton_append]
        · rw [if_neg hb] at h
          simp at h
      | cons p2 ps2 => rw [hsp] at h; simp at h

theorem extract_token_bearer {t : PyStr} (h : ' ' ∉ t) :
    JWTAuthMiddleware.extract_token ("Bearer ".toList ++ t) = some t := by
  unfold JWTAuthMiddleware.extract_token
  have hs : splitOnSpace ("Bearer ".toList ++ t) = ["Bearer".toList, t] := by
    rw [bearer_space_toList, List.append_assoc, List.singleton_append,
      splitOnSpace_append t (by decide), splitOnSpace_no_space h]
  rw [hs]
  simp

theorem validate_token_rejected_401 (m : JWTAuthMiddleware) (st : RequestState)
    (ah : PyStr) (r : JSONResponse)
    (h : m.validate_token st ah = .rejected r) : r.status_code = 401 := by
  unfold JWTAuthMiddleware.validate_token at h
  split at h
  · cases h; rfl
  · cases h; rfl
  · split at h
    · cases h; rfl
    · split at h
      · simp at h
      · cases h; rfl
      · cases h; rfl

theorem handle_missing_header_rejected_401 (m : JWTAuthMiddleware)
    (st : RequestState) (r : JSONResponse)
    (h : m.handle_missing_header st = .rejected r) : r.status_code = 401 := by
  unfold JWTAuthMiddleware.handle_missing_header at h
  split at h
  · split at h
    · simp at h
    · simp at h
  · cases h; rfl

theorem authenticate_rejected_status (m : JWTAuthMiddleware) (req : AuthRequest)
    (r : JSONResponse)
    (h : m.authenticate_request req = .rejected r) : r.status_code = 401 := by
  unfold JWTAuthMiddleware.authenticate_request at h
  split at h
  · simp at h
  · split at h
    · exact validate_token_rejected_401 _ _ _ _ h
    · exact handle_missing_header_rejected_401 _ _ _ h
    · exact handle_missing_header_rejected_401 _ _ _ h

theorem validate_token_eq_validator (m : JWTAuthMiddleware)
    (v : JwtTokenValidator) (hm : m.token_validator = some v)
    (st : RequestState) (t : PyStr) (ht : t ≠ []) (hsp : ' ' ∉ t) :
    m.validate_token st ("Bearer ".toList ++ t) =
      match v.validate_token t with
      | .ok claims => .ok { st with claims_identity := some claims }
      | .valueError msg =>
        .rejected ⟨"JWT validation failed: ".toList ++ msg, 401⟩
      | .otherError msg =>
        .rejected ⟨"Authentication error: ".toList ++ msg, 401⟩ := by
  cases t with
  | nil => exact absurd rfl ht
  | cons a as =>
    unfold JWTAuthMiddleware.validate_token
    rw [extract_token_bearer hsp, hm]

/-- Claim C1. The spec states that a missing Authorization header on the
ingestion route succeeds with an anonymous identity whenever no client
identifier is configured, and rejects with 401 otherwise. The code fulfils
the configured-rejection case and the anonymous case when a configuration
object exists with a missing or empty CLIENT_ID, but when no configuration
object is present at all the constructor sets token_validator to None and
the anonymous branch raises an AttributeError instead of succeeding: a code
bug, evaluated here on all four configurations. -/
theorem C1_missing_header_eval :
    (JWTAuthMiddleware.mkFromConfig none cVal).authenticate_request
        ⟨"/api/messages".toList, none, ⟨none⟩⟩ =
      .raised noneTypeAnonymousClaimsMsg
    ∧ (JWTAuthMiddleware.mkFromConfig (some ⟨none⟩) cVal).authenticate_request
        ⟨"/api/messages".toList, none, ⟨none⟩⟩ =
      .ok ⟨some cVal.get_anonymous_claims⟩
    ∧ (JWTAuthMiddleware.mkFromConfig (some ⟨some []⟩) cVal).authenticate_request
        ⟨"/api/messages".toList, none, ⟨none⟩⟩ =
      .ok ⟨some cVal.get_anonymous_claims⟩
    ∧ (JWTAuthMiddleware.mkFromConfig (some ⟨some "client".toList⟩) cVal).authenticate_request
        ⟨"/api/messages".toList, none, ⟨none⟩⟩ =
      .rejected ⟨"Authorization header not found".toList, 401⟩ :=
  ⟨rfl, rfl, rfl, rfl⟩

/-- Claim C2, counterexample. The empty string presented as the
Authorization header does not have the two-token Bearer form, yet the gate
does not reject it with the format error: the Python truthiness test on the
header treats the empty string as a missing header, so with a configured
client identifier the rejection message is the missing-header one. -/
theorem C2_counterexample_empty_header :
    (JWTAuthMiddleware.mkFromConfig (some ⟨some "client".toList⟩) cVal).authenticate_request
        ⟨"/api/messages".toList, some [], ⟨none⟩⟩ =
      .rejected ⟨"Authorization header not found".toList, 401⟩
    ∧ "Authorization header not found".toList ≠
        "Invalid Authorization header format".toList
    ∧ ¬ specBearerWellFormed [] := by
  refine ⟨rfl, by decide, ?_⟩
  rintro ⟨t, _, _, heq⟩
  have hlen := congrArg List.length heq
  rw [List.length_append] at hlen
  simp only [List.length_nil] at hlen
  have h7 : "Bearer ".toList.length = 7 := by decide
  rw [h7] at hlen
  omega

/-- Claim C2, amended: every NON-EMPTY string that does not have the exact
two-token Bearer form, presented as the Authorization header on the
ingestion route, is rejected with 401 and the format error message (the
empty string is instead handled as a missing header). -/
theorem C2_invalid_format_rejected (m : JWTAuthMiddleware) (st : RequestState)
    (s : PyStr) (hne : s ≠ []) (hwf : ¬ specBearerWellFormed s) :
    m.authenticate_request ⟨"/api/messages".toList, some s, st⟩ =
      .rejected ⟨"Invalid Authorization header format".toList, 401⟩ := by
  obtain ⟨c, cs, rfl⟩ : ∃ c cs, s = c :: cs := by
    cases s with
    | nil => exact absurd rfl hne
    | cons c cs => exact ⟨c, cs, rfl⟩
  have hred : m.authenticate_request ⟨"/api/messages".toList, some (c :: cs), st⟩ =
      m.validate_token st (c :: cs) := rfl
  rw [hred]
  unfold JWTAuthMiddleware.validate_token
  cases he : JWTAuthMiddleware.extract_token (c :: cs) with
  | none => rfl
  | some t =>
    cases t with
    | nil => rfl
    | cons d ds =>
      exfalso
      obtain ⟨hs, hsp⟩ := extract_token_eq_some he
      exact hwf ⟨d :: ds, by simp, hsp, hs⟩

/-- Witness for the amended C2 theorem at the concrete header Basic abc. -/
theorem C2_invalid_format_witness :
    (JWTAuthMiddleware.mkFromConfig (some ⟨some "client".toList⟩) cVal).authenticate_request
        ⟨"/api/messages".toList, some "Basic abc".toList, ⟨none⟩⟩ =
      .rejected ⟨"Invalid Authorization header format".toList, 401⟩ := by
  refine C2_invalid_format_rejected _ _ _ (by decide) ?_
  rintro ⟨t, _, _, heq⟩
  have h := congrArg (List.take 7) heq
  rw [show (7 : Nat) = "Bearer ".toList.length from by decide, List.take_left] at h
  exact absurd h (by decide)

/-- Claim C3: when the extracted bearer token makes the external validator
raise a ValueError with message m, the gate rejects with 401 and the JWT
validation failure message; when it raises any other exception with message
m, the gate rejects with 401 and the authentication error message; and
every rejection the gate ever produces carries status 401, never 500. -/
theorem C3_validator_failure_to_401 (v : JwtTokenValidator) (cfg : AuthConfig)
    (st : RequestState) (t msg : PyStr) (ht : t ≠ []) (hsp : ' ' ∉ t) :
    (v.validate_token t = .valueError msg →
      (JWTAuthMiddleware.mkFromConfig (some cfg) v).authenticate_request
          ⟨"/api/messages".toList, some ("Bearer ".toList ++ t), st⟩ =
        .rejected ⟨"JWT validation failed: ".toList ++ msg, 401⟩)
    ∧ (v.validate_token t = .otherError msg →
      (JWTAuthMiddleware.mkFromConfig (some cfg) v).authenticate_request
          ⟨"/api/messages".toList, some ("Bearer ".toList ++ t), st⟩ =
        .rejected ⟨"Authentication error: ".toList ++ msg, 401⟩)
    ∧ (∀ (m : JWTAuthMiddleware) (req : AuthRequest) (r : JSONResponse),
        m.authenticate_request req = .rejected r → r.status_code = 401) := by
  have hred : (JWTAuthMiddleware.mkFromConfig (some cfg) v).authenticate_request
      ⟨"/api/messages".toList, some ("Bearer ".toList ++ t), st⟩ =
      (JWTAuthMiddleware.mkFromConfig (some cfg) v).validate_token st
        ("Bearer ".toList ++ t) := by
    cases t with
    | nil => exact absurd rfl ht
    | cons a as => rfl
  have hv : (JWTAuthMiddleware.mkFromConfig (some cfg) v).token_validator = some v := rfl
  refine ⟨?_, ?_, fun m req r h => authenticate_rejected_status m req r h⟩
  · intro hval
    rw [hred, validate_token_eq_validator _ v hv st t ht hsp, hval]
  · intro hval
    rw [hred, validate_token_eq_validator _ v hv st t ht hsp, hval]

/-- Witness for C3 at the concrete token abc123 and an expiry ValueError,
the scenario of the spec. -/
theorem C3_validator_failure_witness :
    (JWTAuthMiddleware.mkFromConfig (some ⟨some "client".toList⟩) cVal).authenticate_request
        ⟨"/api/messages".toList, some ("Bearer ".toList ++ "abc123".toList), ⟨none⟩⟩ =
      .rejected ⟨"JWT validation failed: ".toList ++ "expired".toList, 401⟩ :=
  (C3_validator_failure_to_401 cVal ⟨some "client".toList⟩ ⟨none⟩
    "abc123".toList "expired".toList (by decide) (by decide)).1 (by decide)

/-- Claim C4: on every route other than the message ingestion route the
gate succeeds without touching the request state, whatever the header. -/
theorem C4_other_routes_bypass (m : JWTAuthMiddleware) (req : AuthRequest)
    (h : req.path ≠ "/api/messages".toList) :
    m.authenticate_request req = .ok req.state := by
  unfold JWTAuthMiddleware.authenticate_request
  rw [if_pos h]

/-- Witness for C4 at the health route with a garbage header. -/
theorem C4_other_routes_witness :
    (JWTAuthMiddleware.mkFromConfig (some ⟨some "client".toList⟩) cVal).authenticate_request
        ⟨"/health".toList, some "garbage".toList, ⟨none⟩⟩ = .ok ⟨none⟩ :=
  C4_other_routes_bypass _ _ (by decide)

/-- Claim C5: a token accepted by the validator stores exactly the returned
claims object in request state; an adapter built over a request whose state
carries that object forwards the same object unchanged in its data bag
under the claims identity key; and an adapter built over a request with no
identity in state is still constructed, logs the warning, and its lookup
returns the supplied default instead of failing. -/
theorem C5_claims_forwarded (v : JwtTokenValidator) (cfg : AuthConfig)
    (st : RequestState) (t : PyStr) (c : ClaimsIdentity)
    (ht : t ≠ []) (hsp : ' ' ∉ t) (hval : v.validate_token t = .ok c) :
    ((JWTAuthMiddleware.mkFromConfig (some cfg) v).authenticate_request
        ⟨"/api/messages".toList, some ("Bearer ".toList ++ t), st⟩ = .ok ⟨some c⟩)
    ∧ (∀ (fr : FastAPIRequest) (body : List Nat),
        fr.state = ⟨some c⟩ →
          (FastAPIToAioHttpRequestAdapter.ofRequest fr body)._data_claims_identity
              = some c
          ∧ (FastAPIToAioHttpRequestAdapter.ofRequest fr body).getData
              "claims_identity".toList none = some c
          ∧ (FastAPIToAioHttpRequestAdapter.ofRequest fr body).warned_missing_identity
              = false)
    ∧ (∀ (fr : FastAPIRequest) (body : List Nat) (default : Option ClaimsIdentity),
        fr.state = ⟨none⟩ →
          (FastAPIToAioHttpRequestAdapter.ofRequest fr body)._data_claims_identity
              = none
          ∧ (FastAPIToAioHttpRequestAdapter.ofRequest fr body).getData
              "claims_identity".toList default = default
          ∧ (FastAPIToAioHttpRequestAdapter.ofRequest fr body).warned_missing_identity
              = true) := by
  refine ⟨?_, ?_, ?_⟩
  · have hred : (JWTAuthMiddleware.mkFromConfig (some cfg) v).authenticate_request
        ⟨"/api/messages".toList, some ("Bearer ".toList ++ t), st⟩ =
        (JWTAuthMiddleware.mkFromConfig (some cfg) v).validate_token st
          ("Bearer ".toList ++ t) := by
      cases t with
      | nil => exact absurd rfl ht
      | cons a as => rfl
    rw [hred, validate_token_eq_validator _ v rfl st t ht hsp, hval]
  · intro fr body hst
    refine ⟨?_, ?_, ?_⟩ <;>
      simp [FastAPIToAioHttpRequestAdapter.ofRequest,
        FastAPIToAioHttpRequestAdapter.getData, hst]
  · intro fr body default hst
    refine ⟨?_, ?_, ?_⟩ <;>
      simp [FastAPIToAioHttpRequestAdapter.ofRequest,
        FastAPIToAioHttpRequestAdapter.getData, hst]

/-- Witness for C5 at the concrete accepted token good and a concrete
request carrying the stored identity, plus the missing-identity default. -/
theorem C5_claims_forwarded_witness :
    ((JWTAuthMiddleware.mkFromConfig (some ⟨some "client".toList⟩) cValGood).authenticate_request
        ⟨"/api/messages".toList, some ("Bearer ".toList ++ "good".toList), ⟨none⟩⟩ =
      .ok ⟨some ⟨[("sub".toList, "alice".toList)]⟩⟩)
    ∧ (FastAPIToAioHttpRequestAdapter.ofRequest
        ⟨"POST".toList, [], [49], ⟨some ⟨[("sub".toList, "alice".toList)]⟩⟩⟩
        [49]).getData "claims_identity".toList none =
      some ⟨[("sub".toList, "alice".toList)]⟩
    ∧ (FastAPIToAioHttpRequestAdapter.ofRequest
        ⟨"POST".toList, [], [49], ⟨none⟩⟩ [49]).getData
        "claims_identity".toList none = none := by
  have h := C5_claims_forwarded cValGood ⟨some "client".toList⟩ ⟨none⟩
    "good".toList ⟨[("sub".toList, "alice".toList)]⟩
    (by decide) (by decide) (by decide)
  exact ⟨h.1,
    (h.2.1 ⟨"POST".toList, [], [49], ⟨some ⟨[("sub".toList, "alice".toList)]⟩⟩⟩ [49] rfl).2.1,
    (h.2.2 ⟨"POST".toList, [], [49], ⟨none⟩⟩ [49] none rfl).2.1⟩

/-- The key sequence of a dict. -/
def dictKeys {α : Type} (d : List (PyStr × α)) : List PyStr :=
  d.map fun p => p.1

theorem dictGetOpt_append_single {α : Type} (d : List (PyStr × α)) (k : PyStr)
    (v : α) (h : ∀ p ∈ d, p.1 ≠ k) (k' : PyStr) :
    dictGetOpt (d ++ [(k, v)]) k' = if k = k' then some v else dictGetOpt d k' := by
  induction d with
  | nil => simp [dictGetOpt]
  | cons p rest ih =>
    have hp : p.1 ≠ k := h p (List.mem_cons_self p rest)
    have ih1 := ih fun q hq => h q (List.mem_cons_of_mem p hq)
    by_cases hk : k = k'
    · subst hk
      simp [dictGetOpt, ih1, hp]
    · by_cases hpk : p.1 = k'
      · simp [dictGetOpt, hpk, hk]
      · simp [dictGetOpt, hpk, hk, ih1]

theorem dictGetOpt_map_upd_self {α : Type} (d : List (PyStr × α)) (k : PyStr)
    (v : α) (hc : dictContains d k = true) :
    dictGetOpt (d.map fun p => if p.1 = k then (p.1, v) else p) k = some v := by
  induction d with
  | nil => simp [dictContains] at hc
  | cons p rest ih =>
    by_cases hp : p.1 = k
    · simp only [List.map_cons, if_pos hp, dictGetOpt]
    · have hc1 : dictContains rest k = true := by
        unfold dictContains at hc ⊢
        rcases List.any_eq_true.mp hc with ⟨q, hq, hqp⟩
        rcases List.mem_cons.mp hq with rfl | hq2
        · exact absurd (of_decide_eq_true hqp) hp
        · exact List.any_eq_true.mpr ⟨q, hq2, hqp⟩
      simp only [List.map_cons, if_neg hp, dictGetOpt, if_neg, ih hc1]

theorem dictGetOpt_map_upd_other {α : Type} (d : List (PyStr × α)) (k : PyStr)
    (v : α) (k' : PyStr) (hk : ¬ k = k') :
    dictGetOpt (d.map fun p => if p.1 = k then (p.1, v) else p) k' =
      dictGetOpt d k' := by
  induction d with
  | nil => rfl
  | cons p rest ih =>
    by_cases hpk : p.1 = k
    · have hp2 : ¬ p.1 = k' := fun h => hk (hpk ▸ h)
      simp only [List.map_cons, if_pos hpk, dictGetOpt, ih]
      simp [hp2]
    · simp only [List.map_cons, if_neg hpk, dictGetOpt, ih]

theorem dictGetOpt_dictSet {α : Type} (d : List (PyStr × α)) (k : PyStr) (v : α)
    (k' : PyStr) :
    dictGetOpt (dictSet d k v) k' = if k = k' then some v else dictGetOpt d k' := by
  unfold dictSet
  cases hc : dictContains d k with
  | false =>
    simp only [if_false, Bool.false_eq_true, if_neg]
    have h : ∀ p ∈ d, p.1 ≠ k := by
      intro p hp he
      have hct : dictContains d k = true := by
        unfold dictContains
        exact List.any_eq_true.mpr ⟨p, hp, decide_eq_true he⟩
      simp [hct] at hc
    exact dictGetOpt_append_single d k v h k'
  | true =>
    simp only [if_true]
    by_cases hk : k = k'
    · subst hk
      rw [if_pos rfl]
      exact dictGetOpt_map_upd_self d k v hc
    · rw [if_neg hk]
      exact dictGetOpt_map_upd_other d k v k' hk

theorem dictGetOpt_foldl {α : Type} (ps : List (PyStr × α))
    (d : List (PyStr × α)) (k : PyStr) :
    dictGetOpt (ps.foldl (fun d p => dictSet d p.1 p.2) d) k =
      match lastValueFor k ps with
      | some v => some v
      | none => dictGetOpt d k := by
  induction ps generalizing d with
  | nil => rfl
  | cons p ps ih =>
    rw [List.foldl_cons, ih]
    cases hl : lastValueFor k ps with
    | some v => simp [lastValueFor, hl]
    | none =>
      simp only [lastValueFor, hl, dictGetOpt_dictSet]
      by_cases hp : p.1 = k <;> simp [hp]

theorem dictGetOpt_dictOfPairs {α : Type} (ps : List (PyStr × α)) (k : PyStr) :
    dictGetOpt (dictOfPairs ps) k = lastValueFor k ps := by
  unfold dictOfPairs
  rw [dictGetOpt_foldl]
  cases hl : lastValueFor k ps <;> simp [dictGetOpt]

theorem lastValueFor_append {α : Type} (xs ys : List (PyStr × α)) (k : PyStr) :
    lastValueFor k (xs ++ ys) =
      match lastValueFor k ys with
      | some v => some v
      | none => lastValueFor k xs := by
  induction xs with
  | nil =>
    simp only [List.nil_append]
    cases hl : lastValueFor k ys <;> simp [lastValueFor]
  | cons p xs ih =>
    cases hl : lastValueFor k ys with
    | some v => simp only [List.cons_append, lastValueFor, List.append_eq, ih, hl]
    | none => simp only [List.cons_append, lastValueFor, List.append_eq, ih, hl]

theorem lastValueFor_none {α : Type} {xs : List (PyStr × α)} {k : PyStr}
    (h : ∀ p ∈ xs, p.1 ≠ k) : lastValueFor k xs = none := by
  induction xs with
  | nil => rfl
  | cons p ps ih =>
    have hp : ¬ p.1 = k := h p (List.mem_cons_self p ps)
    have ih1 := ih fun q hq => h q (List.mem_cons_of_mem p hq)
    simp [lastValueFor, ih1, hp]

theorem dictKeys_map_upd {α : Type} (d : List (PyStr × α)) (k : PyStr) (v : α) :
    dictKeys (d.map fun p => if p.1 = k then (p.1, v) else p) = dictKeys d := by
  induction d with
  | nil => rfl
  | cons p rest ih =>
    by_cases hp : p.1 = k
    · simp only [List.map_cons, if_pos hp, dictKeys] at ih ⊢
      rw [ih]
    · simp only [List.map_cons, if_neg hp, dictKeys] at ih ⊢
      rw [ih]

theorem dictKeys_dictSet {α : Type} (d : List (PyStr × α)) (k : PyStr) (v : α) :
    dictKeys (dictSet d k v) =
      if dictContains d k then dictKeys d else dictKeys d ++ [k] := by
  unfold dictSet
  cases hc : dictContains d k with
  | true => simp [dictKeys_map_upd]
  | false => simp [dictKeys]

theorem dictContains_eq_any_keys {α : Type} (d : List (PyStr × α)) (k : PyStr) :
    dictContains d k = (dictKeys d).any fun x => decide (x = k) := by
  induction d with
  | nil => rfl
  | cons p rest ih =>
    unfold dictContains at ih ⊢
    simp only [dictKeys, List.map_cons, List.any_cons] at ih ⊢
    rw [ih]

theorem dictContains_iff_mem_keys {α : Type} (d : List (PyStr × α)) (k : PyStr) :
    dictContains d k = true ↔ k ∈ dictKeys d := by
  rw [dictContains_eq_any_keys, List.any_eq_true]
  constructor
  · rintro ⟨x, hx, hxe⟩
    exact (of_decide_eq_true hxe) ▸ hx
  · intro h
    exact ⟨k, h, decide_eq_true rfl⟩

theorem not_mem_keys_of_contains_false {α : Type} {d : List (PyStr × α)}
    {k : PyStr} (hc : dictContains d k = false) : k ∉ dictKeys d := by
  intro hm
  have := (dictContains_iff_mem_keys d k).mpr hm
  simp [this] at hc

theorem dictKeys_foldl_nodup {α : Type} (ps : List (PyStr × α))
    (d : List (PyStr × α)) (hd : (dictKeys d).Nodup) :
    (dictKeys (ps.foldl (fun d p => dictSet d p.1 p.2) d)).Nodup := by
  induction ps generalizing d with
  | nil => exact hd
  | cons p ps ih =>
    rw [List.foldl_cons]
    apply ih
    rw [dictKeys_dictSet]
    cases hc : dictContains d p.1 with
    | true => simpa using hd
    | false =>
      simp only [Bool.false_eq_true, if_false]
      have hperm := List.perm_append_singleton p.1 (dictKeys d)
      rw [hperm.nodup_iff]
      exact List.Nodup.cons (not_mem_keys_of_contains_false hc) hd

theorem dictKeys_dictOfPairs_nodup {α : Type} (ps : List (PyStr × α)) :
    (dictKeys (dictOfPairs ps)).Nodup :=
  dictKeys_foldl_nodup ps [] (by simp [dictKeys])

theorem countP_eq_one_of_nodup {l : List PyStr} {a : PyStr} (hnd : l.Nodup)
    (ha : a ∈ l) : l.countP (fun x => decide (x = a)) = 1 := by
  induction l with
  | nil => simp at ha
  | cons b bs ih =>
    rw [List.countP_cons]
    rcases List.mem_cons.mp ha with rfl | hmem
    · have hnb : a ∉ bs := (List.nodup_cons.mp hnd).1
      have h0 : bs.countP (fun x => decide (x = a)) = 0 := by
        rw [List.countP_eq_zero]
        intro x hx
        simp only [decide_eq_true_eq]
        exact fun hxa => hnb (hxa ▸ hx)
      simp [h0]
    · have hne : ¬ b = a := fun h => (List.nodup_cons.mp hnd).1 (h ▸ hmem)
      rw [ih (List.nodup_cons.mp hnd).2 hmem]
      simp [hne]

theorem countP_congr_mem {α : Type} {l : List α} {p q : α → Bool}
    (h : ∀ x ∈ l, p x = q x) : l.countP p = l.countP q := by
  induction l with
  | nil => rfl
  | cons a as ih =>
    rw [List.countP_cons, List.countP_cons, h a (List.mem_cons_self a as),
      ih fun x hx => h x (List.mem_cons_of_mem a hx)]

theorem dictGetOpt_some_of_mem_keys {α : Type} {d : List (PyStr × α)}
    {k : PyStr} (h : k ∈ dictKeys d) :
    ∃ v, dictGetOpt d k = some v ∧ (k, v) ∈ d := by
  induction d with
  | nil => simp [dictKeys] at h
  | cons p rest ih =>
    by_cases hp : p.1 = k
    · refine ⟨p.2, by simp only [dictGetOpt, if_pos hp], ?_⟩
      rw [← hp]
      exact List.mem_cons_self p rest
    · have hk : k ∈ dictKeys rest := by
        simp only [dictKeys, List.map_cons, List.mem_cons] at h
        rcases h with h1 | h1
        · exact absurd h1.symm hp
        · exact h1
      obtain ⟨v, hv, hmem⟩ := ih hk
      refine ⟨v, ?_, List.mem_cons_of_mem _ hmem⟩
      simp only [dictGetOpt, if_neg hp]
      exact hv

theorem mem_keys_of_dictGetOpt_some {α : Type} {d : List (PyStr × α)}
    {k : PyStr} {v : α} (h : dictGetOpt d k = some v) : k ∈ dictKeys d := by
  induction d with
  | nil => simp [dictGetOpt] at h
  | cons p rest ih =>
    by_cases hp : p.1 = k
    · simp only [dictKeys, List.map_cons, List.mem_cons]
      exact Or.inl hp.symm
    · simp only [dictGetOpt, if_neg hp] at h
      simp only [dictKeys, List.map_cons, List.mem_cons]
      exact Or.inr (ih h)

theorem forall_mem_dictSet {α : Type} {P : PyStr × α → Prop}
    {d : List (PyStr × α)} {k : PyStr} {v : α}
    (hd : ∀ p ∈ d, P p) (hkv : P (k, v)) : ∀ p ∈ dictSet d k v, P p := by
  intro p hp
  unfold dictSet at hp
  by_cases hc : dictContains d k
  · rw [if_pos hc] at hp
    obtain ⟨q, hq, hqe⟩ := List.mem_map.mp hp
    by_cases hqk : q.1 = k
    · rw [if_pos hqk] at hqe
      subst hqe
      rw [hqk]
      exact hkv
    · rw [if_neg hqk] at hqe
      subst hqe
      exact hd q hq
  · rw [if_neg hc] at hp
    rcases List.mem_append.mp hp with h1 | h1
    · exact hd p h1
    · rw [List.mem_singleton.mp h1]
      exact hkv

theorem forall_mem_foldl_dictSet {α : Type} {P : PyStr × α → Prop} :
    ∀ (ps : List (PyStr × α)) (d : List (PyStr × α)),
      (∀ p ∈ ps, P p) → (∀ p ∈ d, P p) →
      ∀ p ∈ ps.foldl (fun d p => dictSet d p.1 p.2) d, P p := by
  intro ps
  induction ps with
  | nil => intro d _ hd; exact hd
  | cons q qs ih =>
    intro d hps hd
    rw [List.foldl_cons]
    exact ih (dictSet d q.1 q.2) (fun r hr => hps r (List.mem_cons_of_mem q hr))
      (forall_mem_dictSet hd (hps q (List.mem_cons_self q qs)))

theorem forall_mem_dictOfPairs {α : Type} {P : PyStr × α → Prop}
    (ps : List (PyStr × α)) (hps : ∀ p ∈ ps, P p) :
    ∀ p ∈ dictOfPairs ps, P p :=
  forall_mem_foldl_dictSet ps [] hps fun p hp => absurd hp (List.not_mem_nil p)

theorem dictKeys_foldl_congr {α β : Type} (ps : List (PyStr × α))
    (qs : List (PyStr × β))
    (hk : ps.map (fun p => p.1) = qs.map (fun p => p.1))
    (d : List (PyStr × α)) (d' : List (PyStr × β))
    (hd : dictKeys d = dictKeys d') :
    dictKeys (ps.foldl (fun d p => dictSet d p.1 p.2) d) =
      dictKeys (qs.foldl (fun d p => dictSet d p.1 p.2) d') := by
  induction ps generalizing qs d d' with
  | nil =>
    cases qs with
    | nil => exact hd
    | cons q qs => simp at hk
  | cons p ps ih =>
    cases qs with
    | nil => simp at hk
    | cons q qs =>
      simp only [List.map_cons, List.cons.injEq] at hk
      obtain ⟨hk1, hk2⟩ := hk
      rw [List.foldl_cons, List.foldl_cons]
      apply ih qs hk2
      rw [dictKeys_dictSet, dictKeys_dictSet, dictContains_eq_any_keys,
        dictContains_eq_any_keys, hd, hk1]

/-- Claim C6: adapted header lookup is case-insensitive, two keys with the
same lowering always resolving to the same value; and when the native
request has no content-type header under any casing, the adapted headers
resolve Content-Type to application/json. -/
theorem C6_case_insensitive_headers (a : FastAPIToAioHttpRequestAdapter) :
    (∀ (k1 k2 : PyStr) (default : Option PyStr), pyLower k1 = pyLower k2 →
      a.headers.get k1 default = a.headers.get k2 default)
    ∧ ((∀ p ∈ a._fastapi_request.headers, pyLower p.1 ≠ "content-type".toList) →
      ∀ default : Option PyStr,
        a.headers.get "Content-Type".toList default =
          some "application/json".toList) := by
  constructor
  · intro k1 k2 default h
    unfold CaseInsensitiveDict.get
    rw [h]
  · intro hno default
    have h1 : dictContains a._fastapi_request.headers "content-type".toList = false := by
      cases hc : dictContains a._fastapi_request.headers "content-type".toList with
      | false => rfl
      | true =>
        exfalso
        obtain ⟨v, _, hmem⟩ :=
          dictGetOpt_some_of_mem_keys ((dictContains_iff_mem_keys _ _).mp hc)
        have hself : pyLower "content-type".toList = "content-type".toList := by decide
        exact hno _ hmem hself
    have h2 : dictContains a._fastapi_request.headers "Content-Type".toList = false := by
      cases hc : dictContains a._fastapi_request.headers "Content-Type".toList with
      | false => rfl
      | true =>
        exfalso
        obtain ⟨v, _, hmem⟩ :=
          dictGetOpt_some_of_mem_keys ((dictContains_iff_mem_keys _ _).mp hc)
        have hself : pyLower "Content-Type".toList = "content-type".toList := by decide
        exact hno _ hmem hself
    have hh : a.headers = CaseInsensitiveDict.ofDict
        (dictSet a._fastapi_request.headers "Content-Type".toList
          "application/json".toList) := by
      unfold FastAPIToAioHttpRequestAdapter.headers
      rw [h1, h2]
      rfl
    have hset : dictSet a._fastapi_request.headers "Content-Type".toList
        "application/json".toList =
        a._fastapi_request.headers ++
          [("Content-Type".toList, "application/json".toList)] := by
      unfold dictSet
      rw [h2]
      rfl
    rw [hh, hset]
    unfold CaseInsensitiveDict.get CaseInsensitiveDict.ofDict
    rw [dictGetOpt_dictOfPairs]
    have hlow : pyLower "Content-Type".toList = "content-type".toList := by decide
    rw [List.map_append, List.map_cons, List.map_nil, hlow, lastValueFor_append]
    have hsingle : lastValueFor "content-type".toList
        [("content-type".toList, "application/json".toList)] =
        some "application/json".toList := by
      simp [lastValueFor]
    rw [hsingle]

/-- A concrete adapter over a single custom header, used as the C6
witness input. -/
def aHdr : FastAPIToAioHttpRequestAdapter :=
  FastAPIToAioHttpRequestAdapter.ofRequest
    ⟨"POST".toList, [("X-Custom".toList, "1".toList)], [49], ⟨none⟩⟩ [49]

/-- Witness for C6 on a request with one custom header and no
content-type. -/
theorem C6_case_insensitive_witness :
    aHdr.headers.get "x-custom".toList none =
      aHdr.headers.get "X-CUSTOM".toList none
    ∧ aHdr.headers.get "Content-Type".toList none =
      some "application/json".toList :=
  ⟨(C6_case_insensitive_headers aHdr).1 _ _ none (by decide),
    (C6_case_insensitive_headers aHdr).2 (by decide) none⟩

/-- Claim C10: a header dict containing two keys that differ only in
letter case is accepted by the CaseInsensitiveDict constructor and
silently collapsed: every lookup of any casing of that name yields the
value of the later of the two keys in the input order (provided no later
entry reuses the name), and the items view reports exactly one entry for
that name. -/
theorem C10_case_collision (ps qs rs : List (PyStr × PyStr))
    (k1 v1 k2 v2 : PyStr) (default : Option PyStr)
    (hlow : pyLower k1 = pyLower k2) (hne : k1 ≠ k2)
    (hrs : ∀ p ∈ rs, pyLower p.1 ≠ pyLower k2) :
    (∀ k, pyLower k = pyLower k2 →
      (CaseInsensitiveDict.ofDict
          (ps ++ (k1, v1) :: qs ++ (k2, v2) :: rs)).get k default = some v2)
    ∧ ((CaseInsensitiveDict.ofDict
          (ps ++ (k1, v1) :: qs ++ (k2, v2) :: rs)).items.countP
        fun p => decide (pyLower p.1 = pyLower k2)) = 1 := by
  have hC : lastValueFor (pyLower k2)
      (rs.map fun p => (pyLower p.1, p.2)) = none := by
    apply lastValueFor_none
    intro p hp
    obtain ⟨q, hq, rfl⟩ := List.mem_map.mp hp
    exact hrs q hq
  have hdata : ∀ k, pyLower k = pyLower k2 →
      dictGetOpt (CaseInsensitiveDict.ofDict
        (ps ++ (k1, v1) :: qs ++ (k2, v2) :: rs))._data (pyLower k) = some v2 := by
    intro k hk
    show dictGetOpt (dictOfPairs
      (((ps ++ (k1, v1) :: qs ++ (k2, v2) :: rs)).map
        fun p => (pyLower p.1, p.2))) (pyLower k) = some v2
    rw [dictGetOpt_dictOfPairs, hk]
    rw [List.map_append, List.map_cons, List.map_append, List.map_cons]
    simp only [lastValueFor_append, lastValueFor, hC]
    simp
  constructor
  · intro k hk
    unfold CaseInsensitiveDict.get
    rw [hdata k hk]
  · have hkeq : dictKeys (CaseInsensitiveDict.ofDict
        (ps ++ (k1, v1) :: qs ++ (k2, v2) :: rs))._data =
        dictKeys (CaseInsensitiveDict.ofDict
          (ps ++ (k1, v1) :: qs ++ (k2, v2) :: rs))._original_keys := by
      show dictKeys (dictOfPairs
          (((ps ++ (k1, v1) :: qs ++ (k2, v2) :: rs)).map
            fun p => (pyLower p.1, p.2))) =
        dictKeys (dictOfPairs
          (((ps ++ (k1, v1) :: qs ++ (k2, v2) :: rs)).map
            fun p => (pyLower p.1, p.1)))
      unfold dictOfPairs
      refine dictKeys_foldl_congr _ _ ?_ [] [] rfl
      rw [List.map_map, List.map_map]
      rfl
    have horig : ∀ p ∈ (CaseInsensitiveDict.ofDict
        (ps ++ (k1, v1) :: qs ++ (k2, v2) :: rs))._original_keys,
        pyLower p.2 = p.1 := by
      apply forall_mem_dictOfPairs
      intro p hp
      obtain ⟨q, hq, rfl⟩ := List.mem_map.mp hp
      rfl
    have hnodup : (dictKeys (CaseInsensitiveDict.ofDict
        (ps ++ (k1, v1) :: qs ++ (k2, v2) :: rs))._data).Nodup :=
      dictKeys_dictOfPairs_nodup _
    have hmem : pyLower k2 ∈ dictKeys (CaseInsensitiveDict.ofDict
        (ps ++ (k1, v1) :: qs ++ (k2, v2) :: rs))._data :=
      mem_keys_of_dictGetOpt_some (hdata k2 rfl)
    unfold CaseInsensitiveDict.items
    rw [List.countP_map]
    rw [countP_congr_mem (q := fun p => decide (p.1 = pyLower k2)) ?_]
    · have hcount := countP_eq_one_of_nodup hnodup hmem
      rw [dictKeys, List.countP_map] at hcount
      exact hcount
    · intro p hp
      have hpk : p.1 ∈ dictKeys (CaseInsensitiveDict.ofDict
          (ps ++ (k1, v1) :: qs ++ (k2, v2) :: rs))._data :=
        List.mem_map_of_mem (fun p => p.1) hp
      rw [hkeq] at hpk
      obtain ⟨o, ho, homem⟩ := dictGetOpt_some_of_mem_keys hpk
      have hor : pyLower o = p.1 := horig (p.1, o) homem
      show decide (pyLower ((dictGetOpt _ p.1).getD []) = pyLower k2) =
        decide (p.1 = pyLower k2)
      rw [ho, Option.getD_some, hor]

/-- Witness for C10: the two-entry dict with Content-Type then
content-type collapses to the later value under an arbitrary casing of
the name, and reports one entry. -/
theorem C10_case_collision_witness :
    (CaseInsensitiveDict.ofDict
        [("Content-Type".toList, "a".toList),
         ("content-type".toList, "b".toList)]).get
      "CONTENT-TYPE".toList none = some "b".toList
    ∧ ((CaseInsensitiveDict.ofDict
        [("Content-Type".toList, "a".toList),
         ("content-type".toList, "b".toList)]).items.countP
      fun p => decide (pyLower p.1 = pyLower "content-type".toList)) = 1 := by
  have h := C10_case_collision [] [] [] "Content-Type".toList "a".toList
    "content-type".toList "b".toList none (by decide) (by decide) (by decide)
  exact ⟨h.1 "CONTENT-TYPE".toList (by decide), h.2⟩

theorem adapter_text_some {fr : FastAPIRequest} {body : List Nat} {s : PyStr}
    (h : (FastAPIToAioHttpRequestAdapter.ofRequest fr body).text = .ok s) :
    utf8Decode body = some s := by
  revert h
  show (match utf8Decode body with
    | some t => Except.ok t
    | none => Except.error unicodeDecodeErrorMsg) = Except.ok s →
    utf8Decode body = some s
  cases hu : utf8Decode body with
  | some t =>
    intro h2
    injection h2 with h3
    rw [h3]
  | none =>
    intro h2
    exact absurd h2 (by simp)

/-- Claim C7: the three body accessors of the adapter are pure functions of
the single byte buffer read before construction: read returns the buffer,
text its UTF-8 decoding, json the JSON parse of exactly that decoding (so
a valid JSON body parses to the same structure through text, and a parse
failure is re-raised as an error rather than swallowed); two adapters over
the same buffer agree on all three accessors, so repeated calls return
equal results without re-reading the transport stream. -/
theorem C7_body_accessors (fr : FastAPIRequest) (body : List Nat) :
    ((FastAPIToAioHttpRequestAdapter.ofRequest fr body).read = body)
    ∧ (∀ s : PyStr, utf8Decode body = some s →
        (FastAPIToAioHttpRequestAdapter.ofRequest fr body).text = .ok s)
    ∧ (∀ s : PyStr,
        (FastAPIToAioHttpRequestAdapter.ofRequest fr body).text = .ok s →
        (FastAPIToAioHttpRequestAdapter.ofRequest fr body).json = pyJsonLoads s)
    ∧ (∀ (s : PyStr) (e : PyStr),
        (FastAPIToAioHttpRequestAdapter.ofRequest fr body).text = .ok s →
        pyJsonLoads s = .error e →
        (FastAPIToAioHttpRequestAdapter.ofRequest fr body).json = .error e)
    ∧ (∀ fr2 : FastAPIRequest,
        (FastAPIToAioHttpRequestAdapter.ofRequest fr2 body).read =
          (FastAPIToAioHttpRequestAdapter.ofRequest fr body).read
        ∧ (FastAPIToAioHttpRequestAdapter.ofRequest fr2 body).text =
          (FastAPIToAioHttpRequestAdapter.ofRequest fr body).text
        ∧ (FastAPIToAioHttpRequestAdapter.ofRequest fr2 body).json =
          (FastAPIToAioHttpRequestAdapter.ofRequest fr body).json) := by
  refine ⟨rfl, ?_, ?_, ?_, fun fr2 => ⟨rfl, rfl, rfl⟩⟩
  · intro s h
    show (match utf8Decode body with
      | some t => Except.ok t
      | none => Except.error unicodeDecodeErrorMsg) = Except.ok s
    rw [h]
  · intro s h
    have hd := adapter_text_some h
    show (match utf8Decode body with
      | some t => pyJsonLoads t
      | none => Except.error unicodeDecodeErrorMsg) = pyJsonLoads s
    rw [hd]
  · intro s e ht hp
    have hd := adapter_text_some ht
    show (match utf8Decode body with
      | some t => pyJsonLoads t
      | none => Except.error unicodeDecodeErrorMsg) = Except.error e
    rw [hd]
    show pyJsonLoads s = Except.error e
    exact hp

/-- Witness for C7 on the one-byte JSON body 1 and on the non-JSON body
x. -/
theorem C7_body_accessors_witness :
    ((FastAPIToAioHttpRequestAdapter.ofRequest
        ⟨"POST".toList, [], [49], ⟨none⟩⟩ [49]).read = [49])
    ∧ ((FastAPIToAioHttpRequestAdapter.ofRequest
        ⟨"POST".toList, [], [49], ⟨none⟩⟩ [49]).text = .ok "1".toList)
    ∧ ((FastAPIToAioHttpRequestAdapter.ofRequest
        ⟨"POST".toList, [], [49], ⟨none⟩⟩ [49]).json = pyJsonLoads "1".toList)
    ∧ ((FastAPIToAioHttpRequestAdapter.ofRequest
        ⟨"POST".toList, [], [120], ⟨none⟩⟩ [120]).json =
      .error jsonExpectingValueMsg) := by
  have h1 := C7_body_accessors ⟨"POST".toList, [], [49], ⟨none⟩⟩ [49]
  have h2 := C7_body_accessors ⟨"POST".toList, [], [120], ⟨none⟩⟩ [120]
  have ht1 : utf8Decode [49] = some "1".toList := by decide
  have ht2 : utf8Decode [120] = some "x".toList := by decide
  exact ⟨h1.1, h1.2.1 _ ht1, h1.2.2.1 _ (h1.2.1 _ ht1),
    h2.2.2.2.1 "x".toList jsonExpectingValueMsg (h2.2.1 _ ht2) rfl⟩

/-- Claim C8: an empty body on the ingestion route raises the 400
HTTPException with the empty-body detail, and the external processor is
never invoked, whatever its behaviour would have been. -/
theorem C8_empty_body_rejected
    (process : FastAPIToAioHttpRequestAdapter → ProcessorBehavior)
    (req : FastAPIRequest) (h : req.body = []) :
    MessageHandler.handle_message process req =
      (.httpError 400 "Request body is empty".toList, false) := by
  unfold MessageHandler.handle_message
  rw [if_pos h]

/-- Witness for C8 on a concrete empty-body request. -/
theorem C8_empty_body_witness :
    MessageHandler.handle_message (fun _ => .returns ⟨none, 200⟩)
      ⟨"POST".toList, [], [], ⟨none⟩⟩ =
      (.httpError 400 "Request body is empty".toList, false) :=
  C8_empty_body_rejected _ _ rfl

/-- Claim C9, counterexample: a processor result carrying the non-empty
body x with status 200 does not make the handler respond 200 with a
decoded body as the claim states; the JSON decode failure is caught by the
generic handler and translated into a 500 internal error. -/
theorem C9_counterexample_nonjson_body :
    MessageHandler.handle_message (fun _ => .returns ⟨some [120], 200⟩)
      ⟨"POST".toList, [], [49], ⟨none⟩⟩ =
      (.httpError 500 ("Internal server error: ".toList ++ jsonExpectingValueMsg),
        true) := rfl

theorem handle_message_nonempty
    (process : FastAPIToAioHttpRequestAdapter → ProcessorBehavior)
    (req : FastAPIRequest) (hb : req.body ≠ []) :
    MessageHandler.handle_message process req =
      (match process (FastAPIToAioHttpRequestAdapter.ofRequest req req.body) with
      | .raises msg =>
        (.httpError 500 ("Internal server error: ".toList ++ msg), true)
      | .returns resp =>
        match MessageHandler.convert_response resp with
        | .ok r => (r, true)
        | .error e =>
          (.httpError 500 ("Internal server error: ".toList ++ e), true)) := by
  unfold MessageHandler.handle_message
  rw [if_neg hb]

theorem handle_message_raises
    (process : FastAPIToAioHttpRequestAdapter → ProcessorBehavior)
    (req : FastAPIRequest) (msg : PyStr) (hb : req.body ≠ [])
    (hproc : process (FastAPIToAioHttpRequestAdapter.ofRequest req req.body) =
      .raises msg) :
    MessageHandler.handle_message process req =
      (.httpError 500 ("Internal server error: ".toList ++ msg), true) := by
  rw [handle_message_nonempty process req hb, hproc]

theorem handle_message_returns
    (process : FastAPIToAioHttpRequestAdapter → ProcessorBehavior)
    (req : FastAPIRequest) (resp : ProcessorResponse) (hb : req.body ≠ [])
    (hproc : process (FastAPIToAioHttpRequestAdapter.ofRequest req req.body) =
      .returns resp) :
    MessageHandler.handle_message process req =
      (match MessageHandler.convert_response resp with
      | .ok r => (r, true)
      | .error e =>
        (.httpError 500 ("Internal server error: ".toList ++ e), true)) := by
  rw [handle_message_nonempty process req hb, hproc]

theorem convert_response_json_ok {resp : ProcessorResponse} {bs : List Nat}
    {s : PyStr} {data : JsonValue}
    (hbody : resp.body = some bs) (hbs : bs ≠ [])
    (hdec : utf8Decode bs = some s) (hparse : pyJsonLoads s = .ok data) :
    MessageHandler.convert_response resp = .ok (.response data resp.status) := by
  obtain ⟨rbody, rstatus⟩ := resp
  have hb2 : rbody = some bs := hbody
  subst hb2
  cases bs with
  | nil => exact absurd rfl hbs
  | cons b bs2 =>
    show (match utf8Decode (b :: bs2) with
      | none => Except.error unicodeDecodeErrorMsg
      | some s2 =>
        match pyJsonLoads s2 with
        | .ok d => Except.ok (HandlerResult.response d rstatus)
        | .error e => Except.error e) =
      Except.ok (HandlerResult.response data rstatus)
    rw [hdec]
    show (match pyJsonLoads s with
      | .ok d => Except.ok (HandlerResult.response d rstatus)
      | .error e => Except.error e) =
      Except.ok (HandlerResult.response data rstatus)
    rw [hparse]

theorem convert_response_no_body {resp : ProcessorResponse}
    (h : resp.body = none ∨ resp.body = some []) :
    MessageHandler.convert_response resp = .ok (.response jsonOkBody 200) := by
  obtain ⟨rbody, rstatus⟩ := resp
  rcases h with h | h
  · have hb2 : rbody = none := h
    subst hb2
    rfl
  · have hb2 : rbody = some [] := h
    subst hb2
    rfl

theorem convert_response_ok_shape {resp : ProcessorResponse} {r : HandlerResult}
    (h : MessageHandler.convert_response resp = .ok r) :
    ∃ data status, r = HandlerResult.response data status := by
  obtain ⟨rbody, rstatus⟩ := resp
  cases rbody with
  | none =>
    have h2 : Except.ok (ε := PyStr) (HandlerResult.response jsonOkBody 200) = .ok r := h
    injection h2 with h3
    exact ⟨jsonOkBody, 200, h3.symm⟩
  | some bs =>
    cases bs with
    | nil =>
      have h2 : Except.ok (ε := PyStr) (HandlerResult.response jsonOkBody 200) = .ok r := h
      injection h2 with h3
      exact ⟨jsonOkBody, 200, h3.symm⟩
    | cons b bs2 =>
      revert h
      show (match utf8Decode (b :: bs2) with
        | none => Except.error unicodeDecodeErrorMsg
        | some s2 =>
          match pyJsonLoads s2 with
          | .ok d => Except.ok (HandlerResult.response d rstatus)
          | .error e => Except.error e) = .ok r →
        ∃ data status, r = HandlerResult.response data status
      cases utf8Decode (b :: bs2) with
      | none =>
        intro h2
        exact absurd h2 (by simp)
      | some s2 =>
        show (match pyJsonLoads s2 with
          | .ok d => Except.ok (HandlerResult.response d rstatus)
          | .error e => Except.error e) = .ok r →
          ∃ data status, r = HandlerResult.response data status
        cases pyJsonLoads s2 with
        | ok data =>
          intro h2
          injection h2 with h3
          exact ⟨data, rstatus, h3.symm⟩
        | error e =>
          intro h2
          exact absurd h2 (by simp)

/-- Claim C9, amended: for every ingestion request that reaches the
processor (non-empty body), a returned result with a non-empty body that
decodes and parses as JSON is echoed with its status code and the decoded
body; a result with an absent or empty body yields 200 with the ok
payload; a processor exception with message m yields the 500 internal
error with m; and every error response the handler raises is either the
400 empty-body rejection or a 500 whose detail starts with the internal
error prefix, so the generic exception path is the only source of 500
responses (a non-empty body that fails to decode or parse goes through
that same path, which is what the counterexample exhibits). -/
theorem C9_processor_result_translation
    (process : FastAPIToAioHttpRequestAdapter → ProcessorBehavior)
    (req : FastAPIRequest) (hb : req.body ≠ []) :
    (∀ (resp : ProcessorResponse) (bs : List Nat) (s : PyStr) (data : JsonValue),
      process (FastAPIToAioHttpRequestAdapter.ofRequest req req.body) =
        .returns resp →
      resp.body = some bs → bs ≠ [] → utf8Decode bs = some s →
      pyJsonLoads s = .ok data →
      MessageHandler.handle_message process req =
        (.response data resp.status, true))
    ∧ (∀ resp : ProcessorResponse,
      process (FastAPIToAioHttpRequestAdapter.ofRequest req req.body) =
        .returns resp →
      (resp.body = none ∨ resp.body = some []) →
      MessageHandler.handle_message process req =
        (.response jsonOkBody 200, true))
    ∧ (∀ msg : PyStr,
      process (FastAPIToAioHttpRequestAdapter.ofRequest req req.body) =
        .raises msg →
      MessageHandler.handle_message process req =
        (.httpError 500 ("Internal server error: ".toList ++ msg), true))
    ∧ (∀ (s : Nat) (d : PyStr),
        (MessageHandler.handle_message process req).1 = .httpError s d →
        (s = 400 ∧ d = "Request body is empty".toList) ∨
        (s = 500 ∧ d.take 23 = "Internal server error: ".toList)) := by
  refine ⟨?_, ?_, ?_, ?_⟩
  · intro resp bs s data hproc hbody hbs hdec hparse
    rw [handle_message_returns process req resp hb hproc,
      convert_response_json_ok hbody hbs hdec hparse]
  · intro resp hproc hnone
    rw [handle_message_returns process req resp hb hproc,
      convert_response_no_body hnone]
  · intro msg hproc
    exact handle_message_raises process req msg hb hproc
  · intro s d hres
    cases hp : process (FastAPIToAioHttpRequestAdapter.ofRequest req req.body) with
    | raises msg =>
      right
      rw [handle_message_raises process req msg hb hp] at hres
      injection hres with h1 h2
      refine ⟨h1.symm, ?_⟩
      rw [← h2, show (23 : Nat) = ("Internal server error: ".toList).length from by decide,
        List.take_left]
    | returns resp =>
      cases hcv : MessageHandler.convert_response resp with
      | ok r =>
        obtain ⟨data, status, rfl⟩ := convert_response_ok_shape hcv
        rw [handle_message_returns process req resp hb hp, hcv] at hres
        exact absurd hres (by simp)
      | error e =>
        right
        rw [handle_message_returns process req resp hb hp, hcv] at hres
        injection hres with h1 h2
        refine ⟨h1.symm, ?_⟩
        rw [← h2, show (23 : Nat) = ("Internal server error: ".toList).length from by decide,
          List.take_left]

/-- Witness for the amended C9 at three concrete processors: a JSON body
echoed with status 201, an absent body defaulting to 200 ok, and a raised
exception translated to the 500 internal error. -/
theorem C9_processor_result_witness :
    MessageHandler.handle_message (fun _ => .returns ⟨some [91, 53, 93], 201⟩)
      ⟨"POST".toList, [], [49], ⟨none⟩⟩ =
      (.response (.arr [.num 5]) 201, true)
    ∧ MessageHandler.handle_message (fun _ => .returns ⟨none, 404⟩)
      ⟨"POST".toList, [], [49], ⟨none⟩⟩ =
      (.response jsonOkBody 200, true)
    ∧ MessageHandler.handle_message (fun _ => .raises "boom".toList)
      ⟨"POST".toList, [], [49], ⟨none⟩⟩ =
      (.httpError 500 ("Internal server error: ".toList ++ "boom".toList), true) := by
  have h1 := C9_processor_result_translation
    (fun _ => .returns ⟨some [91, 53, 93], 201⟩)
    ⟨"POST".toList, [], [49], ⟨none⟩⟩ (by decide)
  have h2 := C9_processor_result_translation (fun _ => .returns ⟨none, 404⟩)
    ⟨"POST".toList, [], [49], ⟨none⟩⟩ (by decide)
  have h3 := C9_processor_result_translation (fun _ => .raises "boom".toList)
    ⟨"POST".toList, [], [49], ⟨none⟩⟩ (by decide)
  exact ⟨h1.1 ⟨some [91, 53, 93], 201⟩ [91, 53, 93] "[5]".toList (.arr [.num 5])
      rfl rfl (by decide) (by decide) rfl,
    h2.2.1 ⟨none, 404⟩ rfl (Or.inl rfl),
    h3.2.2.1 "boom".toList rfl⟩
